import Mathlib

/-!
Verification of the SeeWee variant-resolution and export pipeline.

The definitions below are shallow embeddings of the Python functions in
`backend/core/variant_engine.py`, `backend/core/entry_schemas.py`,
`backend/core/markdown_utils.py` and the exporters under
`backend/core/exporters/`.  JSON-ish dynamic values are modelled by the
`PVal` type; list values hold scalar atoms (`PAtom`), which covers every
list that the entry schemas produce and every shape the claims below
exercise.  Python `dict`s carrying entry data are modelled as
association lists (JSON objects have unique keys, first-match lookup
agrees with `dict.get`).  Python strings are modelled by `String`, and
`str.strip` / `str.split` are modelled character-wise.  Wall-clock
fields (`generated_at`) are omitted from the document model since no
claim concerns them.  External markdown converters (`md_to_plain`,
`md_to_html_inline`, ...) come from third-party libraries, so functions
that use them take the converter as an explicit parameter.
-/

set_option autoImplicit false

/-- Scalar Python value appearing inside a list field. -/
inductive PAtom where
  | astr (s : String)
  | aint (n : Int)
  | anone
deriving DecidableEq

/-- Dynamic (JSON-like) Python value as it appears in entry `data` maps. -/
inductive PVal where
  | vstr (s : String)
  | vint (n : Int)
  | vlist (l : List PAtom)
  | vnone
deriving DecidableEq

/-- Python truthiness for scalar atoms. -/
def atomTruthy : PAtom → Bool
  | .astr s => s != ""
  | .aint n => n != 0
  | .anone => false

/-- Python truthiness for the values of `PVal`. -/
def pyTruthy : PVal → Bool
  | .vstr s => s != ""
  | .vint n => n != 0
  | .vlist l => !l.isEmpty
  | .vnone => false

/-- Character 39, the ASCII single-quote used by Python `repr` of strings. -/
def quoteC : Char := Char.ofNat 39

/-- Python `repr` of a scalar (string quoting is modelled without escape
sequences, which is exact for strings not containing a quote). -/
def atomRepr : PAtom → String
  | .astr s => String.mk (quoteC :: (s.toList ++ [quoteC]))
  | .aint n => toString n
  | .anone => "None"

/-- Python `str()` of a scalar atom. -/
def atomToStr : PAtom → String
  | .astr s => s
  | .aint n => toString n
  | .anone => "None"

/-- Python `str()` of a value. -/
def pyToStr : PVal → String
  | .vstr s => s
  | .vint n => toString n
  | .vnone => "None"
  | .vlist l => "[" ++ String.intercalate ", " (l.map atomRepr) ++ "]"

/-- Model of `_as_str` (shared by the exporters): `None` becomes the empty
string, strings pass through, anything else is `str()`-converted. -/
def asStr : PVal → String
  | .vnone => ""
  | .vstr s => s
  | v => pyToStr v

/-- Model of `_as_str` applied to a list element. -/
def asStrAtom : PAtom → String
  | .anone => ""
  | .astr s => s
  | a => atomToStr a

/-- Model of Python `str.strip()` on character lists. -/
def stripChars (l : List Char) : List Char :=
  ((l.dropWhile Char.isWhitespace).reverse.dropWhile Char.isWhitespace).reverse

/-- Model of Python `str.strip()`. -/
def pyStrip (s : String) : String := String.mk (stripChars s.toList)

/-- Model of Python `str.split(sep)` for a one-character separator:
every occurrence splits, empty pieces are kept. -/
def splitChars (sep : Char) : List Char → List (List Char)
  | [] => [[]]
  | c :: cs =>
    match splitChars sep cs with
    | [] => [[c]]
    | p :: ps => if c = sep then [] :: p :: ps else (c :: p) :: ps

/-- Model of Python `str.split(",")`. -/
def pySplitComma (s : String) : List String :=
  (splitChars (Char.ofNat 44) s.toList).map String.mk

/-!
LaTeX escaping.  Two implementations exist in the source:

* `_tex_escape` in `exporters/latex_exporter.py` maps each character
  through a fixed table and joins the results;
* `_escape_latex` in `markdown_utils.py` performs ten sequential
  `str.replace` passes, backslash first.

Both are modelled on `List Char`.  A sequential `str.replace` whose
pattern is a single character replaces every occurrence independently,
which is exactly `List.flatMap` with a per-character substitution.
-/

/-- Backslash, left brace and right brace as characters. -/
def bsC : Char := Char.ofNat 92

/-- Left brace character. -/
def lbC : Char := Char.ofNat 123

/-- Right brace character. -/
def rbC : Char := Char.ofNat 125

/-- Replacement text `\textbackslash{}` as characters. -/
def texBackslash : List Char := bsC :: ("textbackslash".toList ++ [lbC, rbC])

/-- Replacement text `\textasciitilde{}` as characters. -/
def texTilde : List Char := bsC :: ("textasciitilde".toList ++ [lbC, rbC])

/-- Replacement text `\textasciicircum{}` as characters. -/
def texCircum : List Char := bsC :: ("textasciicircum".toList ++ [lbC, rbC])

/-- Python `text.replace(old, new)` for a one-character `old`. -/
def replaceChar (c : Char) (rep : List Char) (l : List Char) : List Char :=
  l.flatMap (fun x => if x = c then rep else [x])

/-- The ordered replacement table of `_escape_latex` in
`markdown_utils.py` (order matters: backslash first). -/
def escapeLatexSteps : List (Char × List Char) :=
  [ (bsC, texBackslash),
    (lbC, [bsC, lbC]),
    (rbC, [bsC, rbC]),
    (Char.ofNat 36, [bsC, Char.ofNat 36]),
    (Char.ofNat 35, [bsC, Char.ofNat 35]),
    (Char.ofNat 37, [bsC, Char.ofNat 37]),
    (Char.ofNat 38, [bsC, Char.ofNat 38]),
    (Char.ofNat 95, [bsC, Char.ofNat 95]),
    (Char.ofNat 126, texTilde),
    (Char.ofNat 94, texCircum) ]

/-- Model of `_escape_latex` (`markdown_utils.py`): the ten sequential
`str.replace` passes applied in order. -/
def escapeLatex (l : List Char) : List Char :=
  escapeLatexSteps.foldl (fun acc p => replaceChar p.1 p.2 acc) l

/-- The per-character table of `_tex_escape` (`latex_exporter.py`):
`mapping.get(ch, ch)`. -/
def texMap (c : Char) : List Char :=
  if c = bsC then texBackslash
  else if c = Char.ofNat 38 then [bsC, Char.ofNat 38]
  else if c = Char.ofNat 37 then [bsC, Char.ofNat 37]
  else if c = Char.ofNat 36 then [bsC, Char.ofNat 36]
  else if c = Char.ofNat 35 then [bsC, Char.ofNat 35]
  else if c = Char.ofNat 95 then [bsC, Char.ofNat 95]
  else if c = lbC then [bsC, lbC]
  else if c = rbC then [bsC, rbC]
  else if c = Char.ofNat 126 then texTilde
  else if c = Char.ofNat 94 then texCircum
  else [c]

/-- Model of `_tex_escape` (`latex_exporter.py`):
`"".join(mapping.get(ch, ch) for ch in s)`. -/
def texEscape (l : List Char) : List Char :=
  l.flatMap texMap

/-!
Entry normalization helpers from `backend/core/entry_schemas.py`.
-/

/-- Model of `_get_str`: return the first listed key whose stored value
is not `None`, `str()`-converted; default is the empty string. -/
def getStr (data : List (String × PVal)) : List String → String
  | [] => ""
  | k :: ks =>
    match List.lookup k data with
    | some v => if v = PVal.vnone then getStr data ks else pyToStr v
    | none => getStr data ks

/-- Model of `_get_list`: the first listed key holding a native list
yields its truthy elements `str()`-converted; the first listed key
holding a string with non-blank `strip()` yields the comma-split,
stripped, non-empty pieces; otherwise the search continues and defaults
to the empty list. -/
def getList (data : List (String × PVal)) : List String → List String
  | [] => []
  | k :: ks =>
    match List.lookup k data with
    | some (PVal.vlist l) => (l.filter atomTruthy).map atomToStr
    | some (PVal.vstr s) =>
      if pyStrip s != "" then ((pySplitComma s).map pyStrip).filter (fun p => p != "")
      else getList data ks
    | _ => getList data ks

/-- Model of `_build_dates`: combine start/end date aliases into the
synthetic `_dates` string. -/
def buildDates (data : List (String × PVal)) : String :=
  let start := getStr data ["start_date", "start", "from"]
  let stop := getStr data ["end_date", "end", "to"]
  if start != "" && stop != "" then start ++ " - " ++ stop
  else if start != "" then start ++ " - Present"
  else if stop != "" then stop
  else getStr data ["dates", "date", "year"]

/-!
Document model (`backend/core/document_model.py`) and the variant
engine (`backend/core/variant_engine.py`).  The repository lookups of
`build_variant_preview` are modelled by passing the variant record and
the entry list directly; `generated_at` is omitted.
-/

/-- Model of a stored entry (`EntryRecord`): id, type, data map, tags. -/
structure EntryRec where
  id : String
  type : String
  data : List (String × PVal)
  tags : List String
deriving DecidableEq

/-- Model of `DocItem`. -/
structure DocItem where
  entry_id : String
  entry_type : String
  data : List (String × PVal)
  tags : List String
deriving DecidableEq

/-- Model of `DocSection`. -/
structure DocSection where
  id : String
  title : String
  items : List DocItem
deriving DecidableEq

/-- Model of `Document` (without the wall-clock `generated_at`). -/
structure Document where
  variant_id : String
  sections : List DocSection
deriving DecidableEq

/-- The `DocItem` built from an entry by both document builders. -/
def toDocItem (e : EntryRec) : DocItem :=
  { entry_id := e.id, entry_type := e.type, data := e.data, tags := e.tags }

/-- Model of the `rules` dict of a variant: `rules.get("include_tags")`
and `rules.get("exclude_tags")`, where an absent or `None` key is
`none`. -/
structure Rules where
  include_tags : Option (List String)
  exclude_tags : Option (List String)
deriving DecidableEq

/-- Model of `VariantLayout`: the ordered `section_id -> entry_ids` map. -/
structure LayoutRec where
  sections : List (String × List String)
deriving DecidableEq

/-- Model of `VariantRecord` (fields the engine reads). -/
structure VariantRec where
  id : String
  rules : Rules
  sections : List (String × Nat)
  layout : Option LayoutRec
deriving DecidableEq

/-- Model of `_title_for_section`: Python
`section_id.replace("_", " ").title()`.  `pyTitleChars` reproduces
`str.title`: an alphabetic character is uppercased after a
non-alphabetic character and lowercased otherwise. -/
def pyTitleChars : Bool → List Char → List Char
  | _, [] => []
  | prevCased, c :: cs =>
    if c.isAlpha then
      (if prevCased then c.toLower else c.toUpper) :: pyTitleChars true cs
    else c :: pyTitleChars false cs

/-- Python `str.title()`. -/
def pyTitle (s : String) : String := String.mk (pyTitleChars false s.toList)

/-- Model of `_title_for_section` in `variant_engine.py`. -/
def titleForSection (sectionId : String) : String :=
  pyTitle (String.mk (sectionId.toList.map (fun c => if c = Char.ofNat 95 then Char.ofNat 32 else c)))

/-- Model of `_matches_rules`: the include/exclude tag filter.  The
Python `rules.get(...) or []` is `Option.getD ... []`, and set
intersection emptiness is tested by `List.any`. -/
def matchesRules (tags : List String) (rules : Rules) : Bool :=
  let includeTags := rules.include_tags.getD []
  let excludeTags := rules.exclude_tags.getD []
  if !includeTags.isEmpty && !(tags.any (fun t => includeTags.contains t)) then false
  else if !excludeTags.isEmpty && tags.any (fun t => excludeTags.contains t) then false
  else true

/-- Model of the dict comprehension `{e.id: e for e in all_entries}`:
the last binding for an id wins. -/
def entriesById (l : List EntryRec) (eid : String) : Option EntryRec :=
  l.reverse.find? (fun e => e.id == eid)

/-- Model of `_build_from_layout`: one section per layout key, in
layout order; each section looks up its entry ids and silently skips
the missing ones. -/
def buildFromLayout (variantId : String) (layoutSections : List (String × List String))
    (store : String → Option EntryRec) : Document :=
  { variant_id := variantId,
    sections := layoutSections.map (fun p =>
      { id := p.1,
        title := titleForSection p.1,
        items := p.2.filterMap (fun eid => (store eid).map toDocItem) }) }

/-- The `section_to_entry_types` table of `_build_auto_grouped`, with
the `dict.get(sid, {sid})` default. -/
def sectionToEntryTypes (sid : String) : List String :=
  if sid = "experience" then ["experience"]
  else if sid = "education" then ["education"]
  else if sid = "projects" then ["project", "projects"]
  else if sid = "publications" then ["publication", "publications"]
  else if sid = "awards" then ["award", "awards", "honor", "honors"]
  else if sid = "volunteering" then ["volunteering", "volunteer"]
  else if sid = "skills" then ["skill", "skills"]
  else if sid = "teaching" then ["teaching"]
  else if sid = "certifications" then ["certification", "certifications"]
  else if sid = "languages" then ["language", "languages"]
  else if sid = "talks" then ["talk", "talks"]
  else if sid = "interests" then ["interest", "interests"]
  else if sid = "references" then ["reference", "references"]
  else [sid]

/-- The inner `for sid in section_ids: ... break` loop: the first
section id whose allowed entry-type set contains the entry type. -/
def firstMatch (sectionIds : List String) (entryType : String) : Option String :=
  sectionIds.find? (fun sid => (sectionToEntryTypes sid).contains entryType)

/-- One iteration of the entry loop of `_build_auto_grouped`,
accumulating the `by_section` map (modelled as a function from section
id to its item list). -/
def addEntry (sectionIds : List String) (rules : Rules)
    (bySection : String → List DocItem) (e : EntryRec) : String → List DocItem :=
  if matchesRules e.tags rules then
    match firstMatch sectionIds e.type with
    | some sid => fun s => if s = sid then bySection s ++ [toDocItem e] else bySection s
    | none => bySection
  else bySection

/-- Model of `_build_auto_grouped`: fill `by_section` by iterating the
entries, then emit one section per declared section id. -/
def buildAutoGrouped (variantId : String) (sectionIds : List String)
    (allEntries : List EntryRec) (rules : Rules) : Document :=
  let bySection := allEntries.foldl (addEntry sectionIds rules) (fun _ => [])
  { variant_id := variantId,
    sections := sectionIds.map (fun sid =>
      { id := sid, title := titleForSection sid, items := bySection sid }) }

/-- The fixed fallback list of 13 section ids in `build_variant_preview`. -/
def defaultSectionIds : List String :=
  [ "experience", "education", "projects", "publications", "awards",
    "volunteering", "skills", "teaching", "certifications", "languages",
    "talks", "interests", "references" ]

/-- The auto-grouping arm of `build_variant_preview`: declared section
order, or the fixed default list when the variant declares none. -/
def buildAutoArm (v : VariantRec) (allEntries : List EntryRec) : Document :=
  let sectionIds := v.sections.map Prod.fst
  let sectionIds := if sectionIds.isEmpty then defaultSectionIds else sectionIds
  buildAutoGrouped v.id sectionIds allEntries v.rules

/-- Model of `build_variant_preview` (after the repository lookups):
`if variant.layout and variant.layout.sections:` use the manual layout,
else auto-group. -/
def buildVariantPreview (v : VariantRec) (allEntries : List EntryRec) : Document :=
  match v.layout with
  | some lay =>
    if !lay.sections.isEmpty then buildFromLayout v.id lay.sections (entriesById allEntries)
    else buildAutoArm v allEntries
  | none => buildAutoArm v allEntries

/-!
Markdown field processing (`process_entry_markdown` in
`markdown_utils.py`).  The three per-target converters are external
markdown-library pipelines, so the function is modelled after the
converter has been selected; for every target the code picks the same
function for `converter` and `list_converter`, hence a single `conv`
parameter.
-/

/-- The `MARKDOWN_FIELDS` set. -/
def markdownFields : List String :=
  [ "description", "summary", "notes", "bio", "about",
    "highlights", "bullets", "responsibilities", "achievements",
    "honors", "citation",
    "abstract", "content" ]

/-- The `LIST_MARKDOWN_FIELDS` set. -/
def listMarkdownFields : List String :=
  ["highlights", "bullets", "responsibilities", "achievements"]

/-- Python `isinstance(value, list)`. -/
def isVList : PVal → Bool
  | .vlist _ => true
  | _ => false

/-- Python `isinstance(value, str)`. -/
def isVStr : PVal → Bool
  | .vstr _ => true
  | _ => false

/-- The string carried by a `vstr` (only read under `isVStr`). -/
def strOf : PVal → String
  | .vstr s => s
  | _ => ""

/-- Element-wise conversion of a list field:
`[list_converter(item) if isinstance(item, str) else item for item in value]`. -/
def mdElem (conv : String → String) : PAtom → PAtom
  | .astr s => .astr (conv s)
  | a => a

/-- Element-wise conversion applied to a list value. -/
def mdList (conv : String → String) : PVal → PVal
  | .vlist l => .vlist (l.map (mdElem conv))
  | v => v

/-- Model of `process_entry_markdown` after converter selection. -/
def processEntryMarkdown (conv : String → String) (data : List (String × PVal)) :
    List (String × PVal) :=
  data.map (fun kv =>
    if listMarkdownFields.contains kv.1 && isVList kv.2 then (kv.1, mdList conv kv.2)
    else if markdownFields.contains kv.1 && isVStr kv.2 then (kv.1, PVal.vstr (conv (strOf kv.2)))
    else kv)

/-!
LinkedIn exporter (`exporters/linkedin_exporter.py`).  The CSV rows are
modelled as ordered column/value association lists (`csv.DictWriter`
writes the dict's values in `fieldnames` order); `md_to_plain` is an
external markdown pipeline and is passed in as `mdPlain`.  The zip-level
serialization (CSV quoting, `mapping.json`, `README.txt`) is not
modelled; the claims concern the rows and the copy blocks.
-/

/-- Model of `_field`: first listed key whose value is not `None` and
whose stripped string form is non-empty, returned stripped. -/
def fieldD (data : List (String × PVal)) : List String → String
  | [] => ""
  | k :: ks =>
    match List.lookup k data with
    | some v =>
      if v != PVal.vnone && pyStrip (asStr v) != "" then pyStrip (asStr v)
      else fieldD data ks
    | none => fieldD data ks

/-- Newline as a string. -/
def nlS : String := String.mk [Char.ofNat 10]

/-- Model of `_join_bullets`: bullet lines from the `highlights` list,
each converted through `md_to_plain` and stripped. -/
def joinBullets (mdPlain : String → String) (item : DocItem) : String :=
  match List.lookup "highlights" item.data with
  | some (PVal.vlist l) =>
    let bullets := (l.filter (fun x => pyStrip (asStrAtom x) != "")).map
      (fun x => pyStrip (mdPlain (asStrAtom x)))
    String.intercalate nlS (bullets.map (fun b => "- " ++ b))
  | _ => ""

/-- The `fieldnames` list passed to `csv.DictWriter`. -/
def linkedinFieldnames : List String :=
  ["entry_type", "title", "company", "location", "start_date", "end_date", "description", "tags"]

/-- The row dict built for one document item, in insertion order. -/
def rowFor (mdPlain : String → String) (item : DocItem) : List (String × String) :=
  let d := item.data
  let title0 := fieldD d ["title", "role", "position", "name"]
  let title := if title0 != "" then title0 else item.entry_type
  let company := fieldD d ["company", "org", "organization"]
  let location := fieldD d ["location"]
  let startDate := fieldD d ["start_date", "start"]
  let endDate := fieldD d ["end_date", "end"]
  let description := joinBullets mdPlain item
  [ ("entry_type", item.entry_type), ("title", title), ("company", company),
    ("location", location), ("start_date", startDate), ("end_date", endDate),
    ("description", description), ("tags", String.intercalate "," item.tags) ]

/-- Em dash separator of the copy-block header. -/
def emDash : String := String.mk [Char.ofNat 8212]

/-- The copy-block lines appended for one document item: header,
optional location/dates/description lines, and one empty spacer line. -/
def copyBlocksFor (mdPlain : String → String) (item : DocItem) : List String :=
  let d := item.data
  let title0 := fieldD d ["title", "role", "position", "name"]
  let title := if title0 != "" then title0 else item.entry_type
  let company := fieldD d ["company", "org", "organization"]
  let location := fieldD d ["location"]
  let startDate := fieldD d ["start_date", "start"]
  let endDate := fieldD d ["end_date", "end"]
  let description := joinBullets mdPlain item
  let header := String.intercalate (" " ++ emDash ++ " ") (([title, company]).filter (fun p => p != ""))
  [header]
    ++ (if location != "" then ["Location: " ++ location] else [])
    ++ (if startDate != "" || endDate != "" then [pyStrip ("Dates: " ++ startDate ++ " - " ++ endDate)] else [])
    ++ (if description != "" then [description] else [])
    ++ [""]

/-- Model of the row-building loop of `render_linkedin_bundle`. -/
def linkedinRows (mdPlain : String → String) (doc : Document) : List (List (String × String)) :=
  doc.sections.flatMap (fun s => s.items.map (rowFor mdPlain))

/-- Model of the copy-block accumulation of `render_linkedin_bundle`. -/
def linkedinCopyBlocks (mdPlain : String → String) (doc : Document) : List String :=
  doc.sections.flatMap (fun s => s.items.flatMap (copyBlocksFor mdPlain))

/-!
Lemmas about the two LaTeX escapers.
-/

theorem replaceChar_append (c : Char) (rep l1 l2 : List Char) :
    replaceChar c rep (l1 ++ l2) = replaceChar c rep l1 ++ replaceChar c rep l2 := by
  simp [replaceChar]

theorem escapeLatex_append (l1 l2 : List Char) :
    escapeLatex (l1 ++ l2) = escapeLatex l1 ++ escapeLatex l2 := by
  simp only [escapeLatex, escapeLatexSteps, List.foldl_cons, List.foldl_nil, replaceChar_append]

theorem replaceChar_singleton_of_ne (c x : Char) (rep : List Char) (h : x ≠ c) :
    replaceChar c rep [x] = [x] := by
  simp [replaceChar, h]

theorem escapeLatex_singleton_of_ne_bs (c : Char) (h : c ≠ bsC) :
    escapeLatex [c] = texMap c := by
  by_cases h1 : c = lbC
  · subst h1; decide
  by_cases h2 : c = rbC
  · subst h2; decide
  by_cases h3 : c = Char.ofNat 36
  · subst h3; decide
  by_cases h4 : c = Char.ofNat 35
  · subst h4; decide
  by_cases h5 : c = Char.ofNat 37
  · subst h5; decide
  by_cases h6 : c = Char.ofNat 38
  · subst h6; decide
  by_cases h7 : c = Char.ofNat 95
  · subst h7; decide
  by_cases h8 : c = Char.ofNat 126
  · subst h8; decide
  by_cases h9 : c = Char.ofNat 94
  · subst h9; decide
  simp [escapeLatex, escapeLatexSteps, replaceChar, texMap, h, h1, h2, h3, h4, h5, h6, h7, h8, h9]

/-- Claim C1: the sequential escaper `_escape_latex` is claimed to escape
each special character exactly once with no replacement text re-escaped,
so that escaping the one-character string consisting of a backslash
yields exactly the fifteen characters of `\textbackslash{}`.  The code
violates this: the brace-replacement passes run after the backslash pass
and escape the braces that the backslash replacement itself introduced,
yielding the seventeen characters of `\textbackslash\` followed by an
escaped brace pair.  This theorem evaluates the code at the failing
input and records that the result is not `\textbackslash{}`. -/
theorem escape_latex_backslash_double_escape :
    escapeLatex [bsC] = (bsC :: "textbackslash".toList) ++ [bsC, lbC, bsC, rbC] ∧
    escapeLatex [bsC] ≠ texBackslash := by
  constructor
  · decide
  · decide

/-- Claim C10 (counterexample): the two LaTeX escapers do not compute
the same function — on the one-character string consisting of a
backslash, the character-map escaper `_tex_escape` returns
`\textbackslash{}` while the sequential escaper `_escape_latex`
additionally escapes the introduced braces. -/
theorem tex_escape_ne_escape_latex_on_backslash :
    texEscape [bsC] ≠ escapeLatex [bsC] := by
  decide

/-- Claim C10 (amended): the two LaTeX escapers agree on every input
string that contains no backslash; they differ on strings containing a
backslash, where `_escape_latex` re-escapes the braces introduced by
its own backslash replacement. -/
theorem tex_escape_eq_escape_latex_of_no_backslash (l : List Char) (h : bsC ∉ l) :
    texEscape l = escapeLatex l := by
  induction l with
  | nil => rfl
  | cons c cs ih =>
    have hc : c ≠ bsC := fun he => h (he ▸ List.mem_cons_self c cs)
    have hcs : bsC ∉ cs := fun hm => h (List.mem_cons_of_mem c hm)
    have h1 : escapeLatex (c :: cs) = escapeLatex [c] ++ escapeLatex cs := by
      have := escapeLatex_append [c] cs
      simpa using this
    have h2 : texEscape (c :: cs) = texMap c ++ texEscape cs := by
      simp [texEscape]
    rw [h1, h2, escapeLatex_singleton_of_ne_bs c hc, ih hcs]

/-- Witness for the amended claim C10 at a concrete backslash-free
string containing several special characters. -/
theorem tex_escape_eq_escape_latex_of_no_backslash_witness :
    texEscape "a&b_{c}~".toList = escapeLatex "a&b_{c}~".toList :=
  tex_escape_eq_escape_latex_of_no_backslash ("a&b_{c}~".toList) (by decide)

/-- Claim C5: the include/exclude tag filter admits an entry iff the
entry shares at least one tag with `include_tags` whenever that list is
non-empty (an empty or absent list imposes no constraint), and shares
no tag with `exclude_tags` (trivially satisfied when empty or absent). -/
theorem matches_rules_iff (tags : List String) (rules : Rules) :
    matchesRules tags rules = true ↔
      (rules.include_tags.getD [] ≠ [] → ∃ t ∈ tags, t ∈ rules.include_tags.getD []) ∧
      (∀ t ∈ tags, t ∉ rules.exclude_tags.getD []) := by
  have hshare : ∀ (l₁ l₂ : List String), (l₁.any fun t => l₂.contains t) = true ↔ ∃ t ∈ l₁, t ∈ l₂ := by
    intro l₁ l₂; simp
  have hne : ∀ (l : List String), (!l.isEmpty) = true ↔ l ≠ [] := by
    intro l; simp [List.isEmpty_iff]
  unfold matchesRules
  dsimp only
  split_ifs with h1 h2
  · rw [Bool.and_eq_true, hne, Bool.not_eq_true', ← Bool.not_eq_true, hshare] at h1
    simp only [false_iff, not_and]
    intro hA hB
    exact h1.2 (hA h1.1)
  · rw [Bool.and_eq_true, hne, hshare] at h2
    simp only [false_iff, not_and]
    intro _ hB
    rcases h2.2 with ⟨t, ht, htexc⟩
    exact hB t ht htexc
  · simp only [true_iff]
    rw [Bool.and_eq_true, hne, Bool.not_eq_true', ← Bool.not_eq_true, hshare, not_and] at h1
    rw [Bool.and_eq_true, hne, hshare, not_and] at h2
    constructor
    · intro hinc
      by_contra hno
      exact h1 hinc hno
    · intro t ht htexc
      have hxne : rules.exclude_tags.getD [] ≠ [] := by
        intro he; rw [he] at htexc; exact List.not_mem_nil t htexc
      exact h2 hxne ⟨t, ht, htexc⟩

/-- Claim C6: the synthetic `_dates` field is `"start - end"` when both
a start and an end are present (the first non-`None` of
`start_date|start|from` resp. `end_date|end|to`, non-empty as a string),
`"start - Present"` when only a start is present, the end value when
only an end is present, and otherwise the first present of
`dates|date|year` (empty string if none, since `_get_str` defaults to
the empty string). -/
theorem build_dates_spec (data : List (String × PVal)) :
    (getStr data ["start_date", "start", "from"] ≠ "" →
      getStr data ["end_date", "end", "to"] ≠ "" →
      buildDates data =
        getStr data ["start_date", "start", "from"] ++ " - " ++ getStr data ["end_date", "end", "to"]) ∧
    (getStr data ["start_date", "start", "from"] ≠ "" →
      getStr data ["end_date", "end", "to"] = "" →
      buildDates data = getStr data ["start_date", "start", "from"] ++ " - Present") ∧
    (getStr data ["start_date", "start", "from"] = "" →
      getStr data ["end_date", "end", "to"] ≠ "" →
      buildDates data = getStr data ["end_date", "end", "to"]) ∧
    (getStr data ["start_date", "start", "from"] = "" →
      getStr data ["end_date", "end", "to"] = "" →
      buildDates data = getStr data ["dates", "date", "year"]) := by
  unfold buildDates
  dsimp only
  refine ⟨?_, ?_, ?_, ?_⟩ <;> intro h1 h2 <;> simp [h1, h2]

/-- Witness for claim C6: a data map with a start date under the alias
`start` and an end date under `to` yields the combined range. -/
theorem build_dates_spec_witness :
    buildDates [("start", PVal.vstr "March 2020"), ("to", PVal.vstr "May 2021")]
      = "March 2020 - May 2021" := by
  have h := (build_dates_spec [("start", PVal.vstr "March 2020"), ("to", PVal.vstr "May 2021")]).1
    (by decide) (by decide)
  rw [h]
  decide

/-- The entry ids of the items produced by a layout section are exactly
the looked-up ids that exist in the store, in order. -/
theorem filterMap_store_ids (entries : List EntryRec) (eids : List String) :
    (eids.filterMap (fun eid => (entriesById entries eid).map toDocItem)).map DocItem.entry_id
      = eids.filter (fun eid => (entriesById entries eid).isSome) := by
  induction eids with
  | nil => rfl
  | cons e es ih =>
    cases h : entriesById entries e with
    | none => simp [List.filterMap_cons, h, List.filter_cons, ih]
    | some v =>
      have hid : v.id = e := by
        have hfind : List.find? (fun x => x.id == e) entries.reverse = some v := h
        have hp := List.find?_some hfind
        simp only [beq_iff_eq] at hp
        exact hp
      simp [List.filterMap_cons, h, List.filter_cons, ih, toDocItem, hid]

/-- Claim C4: building a document from a manual layout is total (it is a
Lean function, so it cannot fail on a dangling id); it produces one
section per layout key in layout order, each section's item ids are
exactly the layout's entry ids that exist in the store, in layout
order, with missing ids silently skipped, and each section's title is
the section id with underscores replaced by spaces and then
title-cased (`titleForSection`). -/
theorem build_from_layout_spec (variantId : String)
    (layoutSections : List (String × List String)) (entries : List EntryRec) :
    (buildFromLayout variantId layoutSections (entriesById entries)).variant_id = variantId ∧
    (buildFromLayout variantId layoutSections (entriesById entries)).sections.map DocSection.id
      = layoutSections.map Prod.fst ∧
    (buildFromLayout variantId layoutSections (entriesById entries)).sections.map DocSection.title
      = layoutSections.map (fun p => titleForSection p.1) ∧
    (buildFromLayout variantId layoutSections (entriesById entries)).sections.map
        (fun s => s.items.map DocItem.entry_id)
      = layoutSections.map (fun p => p.2.filter (fun eid => (entriesById entries eid).isSome)) := by
  refine ⟨rfl, ?_, ?_, ?_⟩
  · simp [buildFromLayout]
  · simp [buildFromLayout]
  · simp only [buildFromLayout, List.map_map]
    apply List.map_congr_left
    intro p _
    exact filterMap_store_ids entries p.2

/-- A variant whose layout is present but maps no sections, together
with one experience entry: the code falls back to auto-grouping here. -/
def layoutPrecVariant : VariantRec :=
  { id := "v", rules := { include_tags := none, exclude_tags := none },
    sections := [], layout := some { sections := [] } }

/-- A single experience entry used by the layout-precedence claims. -/
def layoutPrecEntry : EntryRec :=
  { id := "e1", type := "experience", data := [], tags := [] }

/-- Claim C2 (counterexample): for a variant whose layout is present but
maps no sections, resolution does not build the document from the
manual layout (which would have zero sections) — it auto-groups into
the 13 default sections instead.  This falsifies the claim as
quantified over variants with a present-but-empty layout. -/
theorem layout_precedence_counterexample :
    buildVariantPreview layoutPrecVariant [layoutPrecEntry] ≠
      buildFromLayout layoutPrecVariant.id [] (entriesById [layoutPrecEntry]) ∧
    (buildVariantPreview layoutPrecVariant [layoutPrecEntry]).sections.length = 13 ∧
    (buildFromLayout layoutPrecVariant.id [] (entriesById [layoutPrecEntry])).sections.length = 0 := by
  refine ⟨?_, ?_, ?_⟩ <;> decide

/-- Claim C2 (amended): if the variant has a layout that maps at least
one section, resolution builds the document from that manual layout and
never applies rule-based auto-grouping; auto-grouping is applied exactly
when the layout is absent or maps no sections. -/
theorem build_variant_preview_layout_precedence (v : VariantRec) (entries : List EntryRec) :
    (∀ lay, v.layout = some lay → lay.sections ≠ [] →
      buildVariantPreview v entries = buildFromLayout v.id lay.sections (entriesById entries)) ∧
    (v.layout = none → buildVariantPreview v entries = buildAutoArm v entries) ∧
    (∀ lay, v.layout = some lay → lay.sections = [] →
      buildVariantPreview v entries = buildAutoArm v entries) := by
  refine ⟨?_, ?_, ?_⟩
  · intro lay hl hne
    simp [buildVariantPreview, hl, List.isEmpty_iff, hne]
  · intro hl
    simp [buildVariantPreview, hl]
  · intro lay hl he
    simp [buildVariantPreview, hl, he, List.isEmpty_iff]

/-- A variant with a non-empty manual layout (one section, one dangling
entry id). -/
def layoutPrecVariant2 : VariantRec :=
  { id := "v2", rules := { include_tags := none, exclude_tags := none },
    sections := [], layout := some { sections := [("main", ["e1", "missing"])] } }

/-- Witness for the amended claim C2: a variant with a non-empty layout
resolves through the manual-layout builder. -/
theorem build_variant_preview_layout_precedence_witness :
    buildVariantPreview layoutPrecVariant2 [layoutPrecEntry] =
      buildFromLayout "v2" [("main", ["e1", "missing"])] (entriesById [layoutPrecEntry]) :=
  (build_variant_preview_layout_precedence layoutPrecVariant2 [layoutPrecEntry]).1
    { sections := [("main", ["e1", "missing"])] } rfl (by decide)

/-- The map `toDocItem` is injective: a document item determines the
entry it was built from. -/
theorem toDocItem_inj {a b : EntryRec} (h : toDocItem a = toDocItem b) : a = b := by
  cases a
  cases b
  simpa [toDocItem, DocItem.mk.injEq, EntryRec.mk.injEq] using h

/-- Characterization of the `by_section` accumulator of
`_build_auto_grouped`: after folding all entries, the list at `sid`
holds (in entry order) exactly the rule-matching entries whose first
matching section is `sid`. -/
theorem foldl_addEntry (sectionIds : List String) (rules : Rules)
    (entries : List EntryRec) (acc : String → List DocItem) (sid : String) :
    (entries.foldl (addEntry sectionIds rules) acc) sid =
      acc sid ++ (entries.filter (fun e =>
        matchesRules e.tags rules && (firstMatch sectionIds e.type == some sid))).map toDocItem := by
  induction entries generalizing acc with
  | nil => simp
  | cons e es ih =>
    rw [List.foldl_cons, ih]
    by_cases hm : matchesRules e.tags rules
    · cases hf : firstMatch sectionIds e.type with
      | none => simp [addEntry, hm, hf, List.filter_cons]
      | some s0 =>
        by_cases hs : sid = s0
        · subst hs
          simp [addEntry, hm, hf, List.filter_cons]
        · simp [addEntry, hm, hf, List.filter_cons, hs, Ne.symm hs]
    · simp [addEntry, hm, List.filter_cons, Bool.false_and]

/-- The sections produced by `_build_auto_grouped`, in declared order,
with their item lists characterized by `firstMatch`. -/
theorem buildAutoGrouped_sections (vid : String) (sectionIds : List String)
    (entries : List EntryRec) (rules : Rules) :
    (buildAutoGrouped vid sectionIds entries rules).sections =
      sectionIds.map (fun sid =>
        { id := sid, title := titleForSection sid,
          items := (entries.filter (fun e =>
            matchesRules e.tags rules && (firstMatch sectionIds e.type == some sid))).map toDocItem }) := by
  unfold buildAutoGrouped
  dsimp only
  apply List.map_congr_left
  intro sid _
  have h := foldl_addEntry sectionIds rules entries (fun _ => []) sid
  simp only [List.nil_append] at h
  rw [h]

/-- Claim C3: in auto-grouped resolution, a rule-matching entry appears
in a section's items exactly when that section's id is the first (in
declared order) whose associated entry-type set contains the entry's
type; with duplicate-free section ids (guaranteed by the
`(variant_id, section)` primary key of `variant_sections`) the entry is
therefore placed in at most one section, and an entry whose type
matches no listed section appears in no section. -/
theorem auto_grouping_first_match (vid : String) (sectionIds : List String)
    (entries : List EntryRec) (rules : Rules) (e : EntryRec)
    (hnd : sectionIds.Nodup) (he : e ∈ entries) (hm : matchesRules e.tags rules = true) :
    (∀ s ∈ (buildAutoGrouped vid sectionIds entries rules).sections,
      (toDocItem e ∈ s.items ↔ firstMatch sectionIds e.type = some s.id)) ∧
    (buildAutoGrouped vid sectionIds entries rules).sections.countP
      (fun s => decide (toDocItem e ∈ s.items)) ≤ 1 ∧
    (firstMatch sectionIds e.type = none →
      ∀ s ∈ (buildAutoGrouped vid sectionIds entries rules).sections, toDocItem e ∉ s.items) := by
  have hsec := buildAutoGrouped_sections vid sectionIds entries rules
  have hmem : ∀ s ∈ (buildAutoGrouped vid sectionIds entries rules).sections,
      (toDocItem e ∈ s.items ↔ firstMatch sectionIds e.type = some s.id) := by
    rw [hsec]
    intro s hs
    rcases List.mem_map.mp hs with ⟨sid, hsid, rfl⟩
    dsimp only
    constructor
    · intro hin
      rcases List.mem_map.mp hin with ⟨e2, he2, heq⟩
      have he2f := List.mem_filter.mp he2
      have he2e : e2 = e := toDocItem_inj heq
      subst he2e
      have hcond := he2f.2
      simp only [Bool.and_eq_true, beq_iff_eq] at hcond
      exact hcond.2
    · intro hf
      exact List.mem_map.mpr ⟨e, List.mem_filter.mpr ⟨he, by simp [hm, hf]⟩, rfl⟩
  refine ⟨hmem, ?_, ?_⟩
  · rw [hsec, List.countP_map]
    cases hf : firstMatch sectionIds e.type with
    | none =>
      have hz : (sectionIds.countP ((fun s => decide (toDocItem e ∈ s.items)) ∘ (fun sid =>
          ({ id := sid, title := titleForSection sid,
             items := (entries.filter (fun e2 =>
               matchesRules e2.tags rules && (firstMatch sectionIds e2.type == some sid))).map toDocItem } : DocSection)))) = 0 := by
        apply List.countP_eq_zero.mpr
        intro sid hsid
        simp only [Function.comp_apply, decide_eq_true_eq]
        intro hin
        rcases List.mem_map.mp hin with ⟨e2, he2, heq⟩
        have he2e : e2 = e := toDocItem_inj heq
        subst he2e
        have hcond := (List.mem_filter.mp he2).2
        simp only [Bool.and_eq_true, beq_iff_eq] at hcond
        rw [hf] at hcond
        exact Option.noConfusion hcond.2
      rw [hz]
      exact Nat.zero_le 1
    | some m =>
      have hle : (sectionIds.countP ((fun s => decide (toDocItem e ∈ s.items)) ∘ (fun sid =>
          ({ id := sid, title := titleForSection sid,
             items := (entries.filter (fun e2 =>
               matchesRules e2.tags rules && (firstMatch sectionIds e2.type == some sid))).map toDocItem } : DocSection))))
          ≤ sectionIds.countP (fun sid => sid == m) := by
        apply List.countP_mono_left
        intro sid hsid hp
        simp only [Function.comp_apply, decide_eq_true_eq] at hp
        rcases List.mem_map.mp hp with ⟨e2, he2, heq⟩
        have he2e : e2 = e := toDocItem_inj heq
        subst he2e
        have hcond := (List.mem_filter.mp he2).2
        simp only [Bool.and_eq_true, beq_iff_eq] at hcond
        rw [hf] at hcond
        have hms : m = sid := Option.some.inj hcond.2
        simp [hms]
      calc sectionIds.countP _ ≤ sectionIds.countP (fun sid => sid == m) := hle
        _ = sectionIds.count m := rfl
        _ ≤ 1 := List.nodup_iff_count_le_one.mp hnd m
  · intro hf s hs hin
    have hsome := (hmem s hs).mp hin
    rw [hf] at hsome
    exact Option.noConfusion hsome

/-- A project entry used as witness input for the auto-grouping claim. -/
def autoGroupEntry : EntryRec :=
  { id := "p1", type := "project", data := [], tags := ["side"] }

/-- Witness for claim C3: with two declared sections and one project
entry, the entry lands in at most one section of the document. -/
theorem auto_grouping_first_match_witness :
    (buildAutoGrouped "v" ["projects", "experience"] [autoGroupEntry]
      { include_tags := none, exclude_tags := none }).sections.countP
      (fun s => decide (toDocItem autoGroupEntry ∈ s.items)) ≤ 1 :=
  (auto_grouping_first_match "v" ["projects", "experience"] [autoGroupEntry]
    { include_tags := none, exclude_tags := none } autoGroupEntry
    (by decide) (by decide) (by decide)).2.1

/-- A stripped character list is empty exactly when every character was
whitespace. -/
theorem stripChars_eq_nil_iff (l : List Char) :
    stripChars l = [] ↔ ∀ c ∈ l, c.isWhitespace := by
  unfold stripChars
  constructor
  · intro h c hc
    have h1 : (l.dropWhile Char.isWhitespace).reverse.dropWhile Char.isWhitespace = [] :=
      List.reverse_eq_nil_iff.mp h
    have h2 : ∀ x ∈ (l.dropWhile Char.isWhitespace).reverse, Char.isWhitespace x :=
      List.dropWhile_eq_nil_iff.mp h1
    have h3 : ∀ x ∈ l.dropWhile Char.isWhitespace, Char.isWhitespace x := by
      intro x hx
      exact h2 x (List.mem_reverse.mpr hx)
    rcases List.mem_append.mp (by
        rw [List.takeWhile_append_dropWhile]
        exact hc :
        c ∈ l.takeWhile Char.isWhitespace ++ l.dropWhile Char.isWhitespace) with ht | hd
    · exact List.mem_takeWhile_imp ht
    · exact h3 c hd
  · intro h
    have h0 : l.dropWhile Char.isWhitespace = [] :=
      List.dropWhile_eq_nil_iff.mpr h
    simp [h0]

/-- Every character of a piece produced by `splitChars` occurs in the
input. -/
theorem mem_of_mem_splitChars {sep : Char} {l p : List Char} (hp : p ∈ splitChars sep l)
    {c : Char} (hc : c ∈ p) : c ∈ l := by
  induction l generalizing p with
  | nil =>
    simp [splitChars] at hp
    subst hp
    exact absurd hc (List.not_mem_nil c)
  | cons x xs ih =>
    cases hrec : splitChars sep xs with
    | nil =>
      rw [splitChars, hrec] at hp
      change p ∈ [[x]] at hp
      have hpx : p = [x] := List.mem_singleton.mp hp
      subst hpx
      have hcx : c = x := List.mem_singleton.mp hc
      subst hcx
      exact List.mem_cons_self c xs
    | cons p0 ps =>
      rw [splitChars, hrec] at hp
      change p ∈ (if x = sep then [] :: p0 :: ps else (x :: p0) :: ps) at hp
      by_cases hx : x = sep
      · rw [if_pos hx] at hp
        rcases List.mem_cons.mp hp with rfl | hp2
        · exact absurd hc (List.not_mem_nil c)
        · have hpin : p ∈ splitChars sep xs := by rw [hrec]; exact hp2
          exact List.mem_cons_of_mem x (ih hpin hc)
      · rw [if_neg hx] at hp
        rcases List.mem_cons.mp hp with rfl | hp2
        · rcases List.mem_cons.mp hc with rfl | hc2
          · exact List.mem_cons_self c xs
          · have hpin : p0 ∈ splitChars sep xs := by rw [hrec]; exact List.mem_cons_self p0 ps
            exact List.mem_cons_of_mem x (ih hpin hc2)
        · have hpin : p ∈ splitChars sep xs := by rw [hrec]; exact List.mem_cons_of_mem p0 hp2
          exact List.mem_cons_of_mem x (ih hpin hc)

/-- For a string that strips to empty (all whitespace), splitting on
commas, stripping the pieces and dropping the empty ones yields the
empty list: this is why the blank-string fall-through of `_get_list`
agrees with the split-strip-filter description. -/
theorem blank_split_strip_filter (s : String) (h : pyStrip s = "") :
    ((pySplitComma s).map pyStrip).filter (fun p => p != "") = [] := by
  have hall : ∀ c ∈ s.toList, c.isWhitespace := by
    have hmk : stripChars s.toList = [] := congrArg String.data h
    exact (stripChars_eq_nil_iff _).mp hmk
  rw [List.filter_eq_nil_iff]
  intro q hq
  rcases List.mem_map.mp hq with ⟨r, hr, rfl⟩
  rcases List.mem_map.mp hr with ⟨cs, hcs, rfl⟩
  have hcsws : ∀ c ∈ cs, c.isWhitespace := fun c hc => hall c (mem_of_mem_splitChars hcs hc)
  have hnil : stripChars cs = [] := (stripChars_eq_nil_iff cs).mpr hcsws
  simp [pyStrip, hnil]

/-- Claim C7 (counterexample): a native list input does not keep all of
its elements — the list comprehension `[str(x) for x in val if x]`
drops falsy elements, so `["a", ""]` yields `["a"]`, not `["a", ""]` as
the claim states. -/
theorem get_list_counterexample :
    getList [("highlights", PVal.vlist [PAtom.astr "a", PAtom.astr ""])] ["highlights"] = ["a"] ∧
    getList [("highlights", PVal.vlist [PAtom.astr "a", PAtom.astr ""])] ["highlights"] ≠ ["a", ""] := by
  refine ⟨?_, ?_⟩ <;> decide

/-- Claim C7 (amended): for a single-key data map, a native list input
yields its truthy elements converted to strings (falsy elements such as
the empty string are omitted); a string input yields the list obtained
by splitting on commas, stripping whitespace from each piece and
omitting empty pieces (for a blank string this is the empty list, which
is also what the code's fall-through returns); `None` and non-list,
non-string inputs yield the empty list. -/
theorem get_list_single_value_spec (k : String) (v : PVal) :
    (∀ l, v = PVal.vlist l → getList [(k, v)] [k] = (l.filter atomTruthy).map atomToStr) ∧
    (∀ s, v = PVal.vstr s →
      getList [(k, v)] [k] = ((pySplitComma s).map pyStrip).filter (fun p => p != "")) ∧
    (v = PVal.vnone → getList [(k, v)] [k] = []) ∧
    (∀ n, v = PVal.vint n → getList [(k, v)] [k] = []) := by
  have hlook : List.lookup k [(k, v)] = some v := by simp
  refine ⟨?_, ?_, ?_, ?_⟩
  · intro l hv
    subst hv
    rw [getList, hlook]
  · intro s hv
    subst hv
    by_cases hb : pyStrip s = ""
    · have h2 : (pyStrip s != "") = false := by simp [hb]
      rw [getList, hlook]
      dsimp only
      rw [h2]
      simp only [Bool.false_eq_true, if_false]
      rw [getList]
      exact (blank_split_strip_filter s hb).symm
    · have h2 : (pyStrip s != "") = true := by simp [hb]
      rw [getList, hlook]
      dsimp only
      rw [h2]
      simp only [if_true]
  · intro hv
    subst hv
    rw [getList, hlook]
    rw [getList]
  · intro n hv
    subst hv
    rw [getList, hlook]
    rw [getList]

/-- Witness for the amended claim C7: a comma-separated string with
stray whitespace yields the stripped non-empty pieces. -/
theorem get_list_single_value_spec_witness :
    getList [("skills", PVal.vstr " a, b ,")] ["skills"] =
      ((pySplitComma " a, b ,").map pyStrip).filter (fun p => p != "") :=
  (get_list_single_value_spec "skills" (PVal.vstr " a, b ,")).2.1 " a, b ," rfl

/-- Every list-markdown field name is also a markdown field name
(used to settle the string-valued case of list fields). -/
theorem listMarkdownFields_subset (k : String)
    (h : listMarkdownFields.contains k = true) : markdownFields.contains k = true := by
  have hk : k ∈ listMarkdownFields := by simpa using h
  simp only [listMarkdownFields, List.mem_cons, List.not_mem_nil, or_false] at hk
  rcases hk with rfl | rfl | rfl | rfl
  all_goals decide


/-- Claim C8: markdown processing preserves the key sequence of the
data map; a string value under a markdown field name is converted
through the selected converter; a list value under a list-markdown
field name is converted element-wise with non-string elements left
as-is; and the binding of any key outside the markdown field set is
left unchanged.  The converter is the one the code selects for the
target format (the same function for scalars and list elements for
all three targets), abstracted as a parameter. -/
theorem process_entry_markdown_spec (conv : String → String) (data : List (String × PVal)) :
    ((processEntryMarkdown conv data).map Prod.fst = data.map Prod.fst) ∧
    (∀ i (h : i < data.length) (h2 : i < (processEntryMarkdown conv data).length),
      (∀ s, (data.get ⟨i, h⟩).2 = PVal.vstr s →
        markdownFields.contains (data.get ⟨i, h⟩).1 = true →
        (processEntryMarkdown conv data).get ⟨i, h2⟩ = ((data.get ⟨i, h⟩).1, PVal.vstr (conv s))) ∧
      (∀ l, (data.get ⟨i, h⟩).2 = PVal.vlist l →
        listMarkdownFields.contains (data.get ⟨i, h⟩).1 = true →
        (processEntryMarkdown conv data).get ⟨i, h2⟩ =
          ((data.get ⟨i, h⟩).1, PVal.vlist (l.map (mdElem conv)))) ∧
      (markdownFields.contains (data.get ⟨i, h⟩).1 = false →
        (processEntryMarkdown conv data).get ⟨i, h2⟩ = data.get ⟨i, h⟩)) := by
  constructor
  · simp only [processEntryMarkdown, List.map_map]
    apply List.map_congr_left
    intro kv _
    dsimp only [Function.comp_apply]
    split_ifs <;> rfl
  · intro i h h2
    have hget : (processEntryMarkdown conv data).get ⟨i, h2⟩ =
        (fun kv =>
          if listMarkdownFields.contains kv.1 && isVList kv.2 then (kv.1, mdList conv kv.2)
          else if markdownFields.contains kv.1 && isVStr kv.2 then (kv.1, PVal.vstr (conv (strOf kv.2)))
          else kv) (data.get ⟨i, h⟩) := by
      simp [processEntryMarkdown, List.get_eq_getElem, List.getElem_map]
    refine ⟨?_, ?_, ?_⟩
    · intro s hv hk
      rw [hget]
      dsimp only
      simp only [List.get_eq_getElem] at hv hk
      have hk2 : (data.get ⟨i, h⟩).1 ∈ markdownFields := by
        simp only [List.get_eq_getElem]
        simpa using hk
      simp only [List.get_eq_getElem] at hk2
      simp [hv, hk2, isVList, isVStr, strOf]
    · intro l hv hk
      rw [hget]
      dsimp only
      simp only [List.get_eq_getElem] at hv hk
      have hk2 : (data.get ⟨i, h⟩).1 ∈ listMarkdownFields := by
        simp only [List.get_eq_getElem]
        simpa using hk
      simp only [List.get_eq_getElem] at hk2
      simp [hv, hk2, isVList, mdList]
    · intro hk
      rw [hget]
      dsimp only
      have hkl : listMarkdownFields.contains (data.get ⟨i, h⟩).1 = false := by
        by_contra hc
        have : listMarkdownFields.contains (data.get ⟨i, h⟩).1 = true := by
          cases hb : listMarkdownFields.contains (data.get ⟨i, h⟩).1
          · exact absurd hb hc
          · rfl
        have := listMarkdownFields_subset _ this
        rw [hk] at this
        exact Bool.noConfusion this
      have hk2 : (data.get ⟨i, h⟩).1 ∉ markdownFields := by
        intro hmem
        have hcm : markdownFields.contains (data.get ⟨i, h⟩).1 = true := by simpa using hmem
        rw [hk] at hcm
        exact Bool.noConfusion hcm
      have hkl2 : (data.get ⟨i, h⟩).1 ∉ listMarkdownFields := by
        intro hmem
        have hcm : listMarkdownFields.contains (data.get ⟨i, h⟩).1 = true := by simpa using hmem
        rw [hkl] at hcm
        exact Bool.noConfusion hcm
      simp only [List.get_eq_getElem] at hk2 hkl2
      simp [hk2, hkl2]

/-- Witness for claim C8: a data map with a markdown string field, a
list field containing a non-string element, and an unrelated key. -/
theorem process_entry_markdown_spec_witness :
    (processEntryMarkdown (fun s => s ++ "!")
        [("description", PVal.vstr "d"), ("role", PVal.vstr "r")]).get
      ⟨0, by decide⟩ = ("description", PVal.vstr "d!") :=
  ((process_entry_markdown_spec (fun s => s ++ "!")
      [("description", PVal.vstr "d"), ("role", PVal.vstr "r")]).2 0
    (by decide) (by decide)).1 "d" (by decide) (by decide)

/-- Count of matches in a concatenation of per-element blocks. -/
theorem countP_flatMap {α β : Type} (p : β → Bool) (f : α → List β) (l : List α) :
    (l.flatMap f).countP p = (l.map (fun a => (f a).countP p)).sum := by
  induction l with
  | nil => rfl
  | cons x xs ih => simp [List.flatMap_cons, List.countP_append, ih]

/-- Every per-item copy block contains at least one empty spacer
line (the unconditional trailing spacer). -/
theorem copyBlocksFor_spacer (mdPlain : String → String) (item : DocItem) :
    1 ≤ (copyBlocksFor mdPlain item).countP (fun b => b == "") := by
  unfold copyBlocksFor
  dsimp only
  simp only [List.countP_append, List.countP_cons, List.countP_nil, beq_self_eq_true, if_true]
  omega

/-- A document item with no data, used by the LinkedIn claims. -/
def linkedinItem : DocItem :=
  { entry_id := "e1", entry_type := "experience", data := [], tags := [] }

/-- A one-item document used by the LinkedIn claims. -/
def linkedinDoc : Document :=
  { variant_id := "v",
    sections := [ { id := "experience", title := "Experience", items := [linkedinItem] } ] }

/-- Claim C9 (counterexample): the CSV row produced for a document
item does not have the seven claimed columns
(type/title/company/location/dates/description/tags) — the
DictWriter fieldnames are the eight columns entry_type, title,
company, location, start_date, end_date, description, tags, with
separate start/end dates and the column named entry_type. -/
theorem linkedin_columns_counterexample :
    (linkedinRows (fun s => s) linkedinDoc).map (fun r => r.map Prod.fst) = [linkedinFieldnames] ∧
    linkedinFieldnames ≠ ["type", "title", "company", "location", "dates", "description", "tags"] := by
  refine ⟨?_, ?_⟩ <;> decide

/-- Claim C9 (amended): the LinkedIn export flattens each document
item into one CSV row whose columns are exactly entry_type, title,
company, location, start_date, end_date, description, tags; the
number of rows equals the number of items across all sections; and
the copy-block text contains at least one spacer-terminated block
per entry. -/
theorem linkedin_bundle_structure (mdPlain : String → String) (doc : Document) :
    (linkedinRows mdPlain doc).length = (doc.sections.map (fun s => s.items.length)).sum ∧
    (∀ r ∈ linkedinRows mdPlain doc, r.map Prod.fst = linkedinFieldnames) ∧
    (doc.sections.map (fun s => s.items.length)).sum ≤
      (linkedinCopyBlocks mdPlain doc).countP (fun b => b == "") := by
  refine ⟨?_, ?_, ?_⟩
  · rw [linkedinRows, List.length_flatMap]
    congr 1
    apply List.map_congr_left
    intro s _
    simp
  · intro r hr
    rcases List.mem_flatMap.mp hr with ⟨s, hs, hr2⟩
    rcases List.mem_map.mp hr2 with ⟨item, hi, rfl⟩
    rfl
  · rw [linkedinCopyBlocks, countP_flatMap]
    have hsec : ∀ s : DocSection,
        s.items.length ≤ (s.items.flatMap (copyBlocksFor mdPlain)).countP (fun b => b == "") := by
      intro s
      rw [countP_flatMap]
      calc s.items.length = (s.items.map (fun _ => 1)).sum := by simp
        _ ≤ (s.items.map (fun item => (copyBlocksFor mdPlain item).countP (fun b => b == ""))).sum := by
            apply List.sum_le_sum
            intro item _
            exact copyBlocksFor_spacer mdPlain item
    calc (doc.sections.map (fun s => s.items.length)).sum
        ≤ (doc.sections.map (fun s =>
            (s.items.flatMap (copyBlocksFor mdPlain)).countP (fun b => b == ""))).sum := by
          apply List.sum_le_sum
          intro s _
          exact hsec s
      _ = _ := rfl

/-- Witness for the amended claim C9: the row built for a concrete item
carries exactly the eight DictWriter fieldnames. -/
theorem linkedin_bundle_structure_witness :
    (rowFor (fun s => s) linkedinItem).map Prod.fst = linkedinFieldnames :=
  (linkedin_bundle_structure (fun s => s) linkedinDoc).2.1
    (rowFor (fun s => s) linkedinItem) (by decide)
